import Mathlib

/-!
Verification development for the fleet telemetry and enforcement loop of the
HoseinProxy panel (`panel/app/services/monitor.py`, `panel/app/utils/helpers.py`,
`panel/app/services/firewall_service.py`).

The Python functions are shallowly embedded as executable Lean definitions:
byte counters are `Nat`, wall-clock instants and durations are `Rat` (seconds),
database rows are structures, the mutable module-level dictionaries are modelled
as explicit state threaded through the step functions, and calls to external
collaborators (the container runtime, iptables, the notification channel) are
modelled by their observable effect on that state, on the non-raising path that
the surrounding `try`/`except` blocks make total.
-/

/-- One row of the `Proxy` table, restricted to the fields the monitor loop
reads and writes (`panel/app/models.py`).  `quota_start` is a nullable
timestamp of which only truthiness is ever consulted, so it is a `Bool` here;
`expiry_date` keeps its value because `_check_proxy_limits` compares it to
`now`. -/
structure ProxyRec where
  id : Nat
  port : Nat
  container_id : Option String
  status : String
  upload : Nat
  download : Nat
  active_connections : Nat
  quota_bytes : Nat
  quota_start : Bool
  quota_base_upload : Nat
  quota_base_download : Nat
  expiry_date : Option Rat
  deriving DecidableEq, Repr

/-- `_quota_usage_bytes` from `panel/app/utils/helpers.py` (lines 76-84).
Without a `quota_start` it falls back to total usage `upload + download`;
with one it returns `max 0 (upload - base_upload) + max 0 (download -
base_download)`, which over `Nat` is exactly truncated subtraction. -/
def quotaUsageBytes (p : ProxyRec) : Nat :=
  if ¬ p.quota_start then
    p.upload + p.download
  else
    (p.upload - p.quota_base_upload) + (p.download - p.quota_base_download)

/-- Observable outcome of running the `_check_proxy_limits` body on one proxy:
the updated row, the number of `container.stop()` commands issued to the
container runtime, and the dedupe keys of the alerts requested through
`_maybe_emit_alert`. -/
structure LimitResult where
  proxy : ProxyRec
  stopCmds : Nat
  alertKeys : List String
  deriving DecidableEq, Repr

/-- The loop-body of `_check_proxy_limits` (`monitor.py` lines 46-76) for a
single proxy, on the path where the container-runtime calls succeed.
A non-running proxy is skipped; otherwise expiry is checked first and the
quota second; on a stop, one stop command is issued when the runtime handle
and a `container_id` are present, the status is overwritten with `"stopped"`,
and one alert with key `"autostop:<id>"` is requested. -/
def checkProxyLimits1 (now : Rat) (dockerAvailable : Bool) (p : ProxyRec) : LimitResult :=
  if p.status ≠ "running" then ⟨p, 0, []⟩
  else
    let expired : Bool :=
      match p.expiry_date with
      | some e => decide (e < now)
      | none => false
    let quotaHit : Bool :=
      decide (0 < p.quota_bytes) && decide (p.quota_bytes ≤ quotaUsageBytes p)
    if expired || quotaHit then
      { proxy := { p with status := "stopped" }
        stopCmds := if dockerAvailable && p.container_id.isSome then 1 else 0
        alertKeys := ["autostop:" ++ toString p.id] }
    else ⟨p, 0, []⟩

/-- The counter-reconciliation core of `update_docker_stats` (`monitor.py`
lines 138-210) for one proxy and one cycle.  `prev` is the proxy's
`(upload, download)` pair going into the cycle; `ipt` is the outcome of the
iptables accounting probe, `some (rx, tx)` when the probe ran without an
exception (rx = bytes whose destination is the container address, tx = bytes
whose source it is) and `none` when it raised; `docker` is likewise the
summed `(rx_bytes, tx_bytes)` of `container.stats`, `none` when that call
raised (in which case the per-proxy `except: continue` leaves the row
untouched).  The result is the `(upload, download)` pair written back. -/
def reconcileCounters (prev : Nat × Nat) (ipt : Option (Nat × Nat))
    (docker : Option (Nat × Nat)) : Nat × Nat :=
  match ipt with
  | some (iptRx, iptTx) =>
    if 0 < iptRx ∨ 0 < iptTx then
      (iptTx / 2, iptRx / 2)
    else
      match docker with
      | some (rawRx, rawTx) => (rawTx / 2, rawRx / 2)
      | none => prev
  | none =>
    match docker with
    | some (rawRx, rawTx) => (rawTx / 2, rawRx / 2)
    | none => prev

/-- The rate-estimation step of `update_docker_stats` (`monitor.py` lines
214-224).  `prev` is the proxy's entry in `_last_bytes` — `some (prevTx,
prevRx, prevTime)` — or `none` on the first observation; `tx`/`rx` are the
counters just reconciled and `now` the current wall clock.  Elapsed time is
floored at the epsilon `1/1000` seconds and Python's `int()` of the
non-negative quotient is its floor.  Returns
`(upload_rate_bps, download_rate_bps)`. -/
def rateEstimate (prev : Option (Nat × Nat × Rat)) (tx rx : Nat) (now : Rat) : Int × Int :=
  match prev with
  | none => (0, 0)
  | some (prevTx, prevRx, prevTime) =>
    let dt : Rat := max (1 / 1000) (now - prevTime)
    let dUp : Int := max 0 ((tx : Int) - (prevTx : Int))
    let dDown : Int := max 0 ((rx : Int) - (prevRx : Int))
    (⌊(dUp : Rat) / dt⌋, ⌊(dDown : Rat) / dt⌋)

/-- Key of the in-memory `_conn_first_seen` dictionary:
`(proxy id, remote address, remote port, local port)` as built in
`update_docker_stats` (`monitor.py` lines 270-285). -/
abbrev ConnKey := Nat × String × Nat × Nat

/-- The `_conn_first_seen` dictionary, as a partial map from keys to the
epoch-seconds instant at which the key was first observed. -/
abbrev ConnMap := ConnKey → Option Rat

/-- Processing one observed connection against `_conn_first_seen`:
`first_seen = _conn_first_seen.get(conn_key); if not first_seen:
_conn_first_seen[conn_key] = now_epoch`.  Python truthiness makes a stored
`0.0` behave like a missing entry, hence the `getD 0 = 0` test. -/
def observeKey (m : ConnMap) (k : ConnKey) (now : Rat) : ConnMap :=
  if (m k).getD 0 = 0 then
    fun k2 => if k2 = k then some now else m k2
  else m

/-- One cycle of first-seen bookkeeping in `update_docker_stats` (lines
270-300): every currently observed key is run through `observeKey`, then every
key no longer observed is deleted (`to_del` / `pop`). -/
def reconcileConns (m : ConnMap) (current : List ConnKey) (now : Rat) : ConnMap :=
  let m1 := current.foldl (fun acc k => observeKey acc k now) m
  fun k => if k ∈ current then m1 k else none

/-- A persisted `Alert` row (`panel/app/models.py`), with `created_at` as
epoch seconds. -/
structure AlertRow where
  proxy_id : Option Nat
  severity : String
  message : String
  created_at : Rat
  deriving DecidableEq, Repr

/-- The state touched by `_maybe_emit_alert`: the module-level
`_last_alert_by_key` dictionary and the persisted `Alert` table. -/
structure AlertSt where
  lastByKey : String → Option Rat
  events : List AlertRow

/-- `_maybe_emit_alert` (`monitor.py` lines 25-44) on the path where the
database commit succeeds: if an emission for `key` happened less than
`cooldown` seconds ago the call returns without touching anything; otherwise
it records `now` for the key and appends one `Alert` row. -/
def maybeEmitAlert (st : AlertSt) (pid : Option Nat) (severity message key : String)
    (now : Rat) (cooldown : Rat) : AlertSt :=
  match st.lastByKey key with
  | some last =>
    if now - last < cooldown then st
    else
      { lastByKey := fun k => if k = key then some now else st.lastByKey k
        events := st.events ++ [⟨pid, severity, message, now⟩] }
  | none =>
    { lastByKey := fun k => if k = key then some now else st.lastByKey k
      events := st.events ++ [⟨pid, severity, message, now⟩] }

/-- `get_setting` (`panel/app/utils/helpers.py` lines 26-28): the stored value
when the key exists, the supplied default otherwise.  The `Settings` table is
modelled as an association list over its unique `key` column. -/
def getSetting (settings : List (String × String)) (key dflt : String) : String :=
  match settings.lookup key with
  | some v => v
  | none => dflt

/-- The iptables DROP-rule state touched by `_apply_firewall_rule`
(`panel/app/services/firewall_service.py`): the `INPUT` and `FORWARD` chains,
each listed top first (rules are added with `iptables -I`). -/
structure Firewall where
  input : List String
  forward : List String
  deriving DecidableEq, Repr

/-- `_apply_firewall_rule` (`firewall_service.py` lines 6-35) on Linux with
iptables present: the existence check `iptables -C INPUT -s ip -j DROP` probes
the `INPUT` chain; `block` inserts a DROP rule at the top of both chains only
when that check fails, `unblock` deletes one matching rule from each chain
only when it succeeds. -/
def applyFirewallRule (fw : Firewall) (ip : String) (action : String) : Firewall :=
  let ruleExists := ip ∈ fw.input
  if action = "block" then
    if ¬ ruleExists then { input := ip :: fw.input, forward := ip :: fw.forward }
    else fw
  else if action = "unblock" then
    if ruleExists then { input := fw.input.erase ip, forward := fw.forward.erase ip }
    else fw
  else fw

/-- The state touched by the per-IP threshold / auto-block section of
`update_docker_stats` (lines 304-325): the persisted `BlockedIP` table (its
unique `ip_address` column, in insertion order), the firewall chains, and the
dedupe keys passed to `_maybe_emit_alert` this run. -/
structure BlockSt where
  blocklist : List String
  fw : Firewall
  alertKeys : List String
  deriving DecidableEq, Repr

/-- The body run for one `(pid, ip), cnt` entry that reached the per-IP
threshold (`monitor.py` lines 311-325): the alert is always requested; then,
only when the persisted setting `auto_block_enabled` equals `"1"` and the
address has no `BlockedIP` row yet, a `BlockEntry` is appended and the
firewall block rule applied. -/
def handleThresholdHit (settings : List (String × String)) (pid : Nat) (ip : String)
    (st : BlockSt) : BlockSt :=
  let st1 : BlockSt :=
    { st with alertKeys := st.alertKeys ++ ["ip:" ++ toString pid ++ ":" ++ ip] }
  let autoBlock := getSetting settings "auto_block_enabled" "0" = "1"
  if autoBlock then
    if ip ∈ st1.blocklist then st1
    else
      { st1 with
        blocklist := st1.blocklist ++ [ip]
        fw := applyFirewallRule st1.fw ip "block" }
  else st1

/-- One iteration of the inner `for (pid, ip), cnt in ip_counts.items()` loop
(`monitor.py` lines 308-325) while processing proxy `pidP`: entries of other
proxies are skipped, and entries at or above the per-IP threshold are handled
by `handleThresholdHit`. -/
def autoBlockEntryStep (settings : List (String × String)) (threshold : Nat) (pidP : Nat)
    (acc : BlockSt) (entry : (Nat × String) × Nat) : BlockSt :=
  if entry.1.1 ≠ pidP then acc
  else if threshold ≤ entry.2 then handleThresholdHit settings entry.1.1 entry.1.2 acc
  else acc

/-- The inner loop over `ip_counts.items()` run for one proxy `pidP`. -/
def autoBlockProxyStep (settings : List (String × String)) (threshold : Nat)
    (ipCounts : List ((Nat × String) × Nat)) (acc : BlockSt) (pidP : Nat) : BlockSt :=
  ipCounts.foldl (autoBlockEntryStep settings threshold pidP) acc

/-- The per-IP threshold section of one monitor cycle (`monitor.py` lines
304-325): `for p in proxies`, run the inner `ip_counts` loop for `p.id`. -/
def autoBlockCycle (settings : List (String × String)) (threshold : Nat)
    (proxies : List Nat) (ipCounts : List ((Nat × String) × Nat)) (st : BlockSt) : BlockSt :=
  proxies.foldl (autoBlockProxyStep settings threshold ipCounts) st

/-- Invariant tying the `BlockedIP` table to the firewall for one address:
either the address is absent from both the blocklist and the `INPUT` chain,
or it appears exactly once in each. -/
def BlockInv (ip : String) (st : BlockSt) : Prop :=
  (ip ∉ st.blocklist ∧ ip ∉ st.fw.input) ∨
  (st.blocklist.count ip = 1 ∧ st.fw.input.count ip = 1)

/-- The address has exactly one `BlockedIP` row and exactly one `INPUT` DROP
rule. -/
def BlockedOnce (ip : String) (st : BlockSt) : Prop :=
  st.blocklist.count ip = 1 ∧ st.fw.input.count ip = 1

/-- A persisted `ProxyStats` row (`panel/app/models.py`), with the timestamp
as epoch seconds. -/
structure SnapRow where
  proxy_id : Nat
  upload : Nat
  download : Nat
  active_connections : Nat
  timestamp : Rat
  deriving DecidableEq, Repr

/-- The snapshot/retention section of one monitor cycle (`monitor.py` lines
252-268).  Only when at least 60 seconds elapsed since `last_stats_sample`
does anything happen: one `ProxyStats` row is appended for every proxy of the
cycle's list (all rows with a non-null `container_id`, whatever their
status), the sample clock is reset, and rows of `ProxyStats` and `Alert`
strictly older than `now - 30` days are deleted.  Returns the new tables and
the new `last_stats_sample`. -/
def archiverStep (now lastSample : Rat) (proxies : List ProxyRec)
    (snaps : List SnapRow) (alerts : List AlertRow) :
    List SnapRow × List AlertRow × Rat :=
  if 60 ≤ now - lastSample then
    let snaps1 := snaps ++ proxies.map
      (fun p => ⟨p.id, p.upload, p.download, p.active_connections, now⟩)
    let cutoff := now - 30 * 86400
    (snaps1.filter (fun s => ¬ s.timestamp < cutoff),
     alerts.filter (fun a => ¬ a.created_at < cutoff),
     now)
  else (snaps, alerts, lastSample)

/-- C2: counter reconciliation is a total function of its sources: when the
iptables accounting probe succeeds with a non-zero total it returns those
totals halved (tx as upload, rx as download); when the probe fails or
accounts zero bytes, the container runtime's counters are used, also halved;
and when that too fails the previous counters are returned unchanged
(last-known-good). -/
theorem reconcileCounters_spec (prev : Nat × Nat) (ipt docker : Option (Nat × Nat)) :
    (∀ rx tx, ipt = some (rx, tx) → 0 < rx + tx →
      reconcileCounters prev ipt docker = (tx / 2, rx / 2)) ∧
    ((ipt = none ∨ ipt = some (0, 0)) → ∀ rrx rtx, docker = some (rrx, rtx) →
      reconcileCounters prev ipt docker = (rtx / 2, rrx / 2)) ∧
    ((ipt = none ∨ ipt = some (0, 0)) → docker = none →
      reconcileCounters prev ipt docker = prev) := by
  refine ⟨?_, ?_, ?_⟩
  · rintro rx tx rfl h
    have hor : 0 < rx ∨ 0 < tx := by omega
    simp [reconcileCounters, hor]
  · rintro (rfl | rfl) rrx rtx rfl <;> simp [reconcileCounters]
  · rintro (rfl | rfl) rfl <;> simp [reconcileCounters]

/-- Witness for `reconcileCounters_spec` at concrete inputs: a non-zero
iptables reading wins, a zero iptables reading falls back to the runtime
counters, and total failure leaves the previous pair unchanged. -/
theorem reconcileCounters_spec_witness :
    reconcileCounters (7, 9) (some (10, 4)) (some (6, 8)) = (2, 5) ∧
    reconcileCounters (7, 9) (some (0, 0)) (some (6, 8)) = (4, 3) ∧
    reconcileCounters (7, 9) none none = (7, 9) :=
  ⟨(reconcileCounters_spec (7, 9) (some (10, 4)) (some (6, 8))).1 10 4 rfl (by decide),
   (reconcileCounters_spec (7, 9) (some (0, 0)) (some (6, 8))).2.1 (Or.inr rfl) 6 8 rfl,
   (reconcileCounters_spec (7, 9) none none).2.2 (Or.inl rfl) rfl⟩

/-- C3: the rate estimate is, for both directions, the floor of
`max 0 (current - previous)` bytes divided by the elapsed seconds floored at
the epsilon `1/1000`; the first observation yields `(0, 0)`; the estimates
are never negative; and a counter regression yields exactly `0`. -/
theorem rateEstimate_spec (prev : Option (Nat × Nat × Rat)) (tx rx : Nat) (now : Rat) :
    0 ≤ (rateEstimate prev tx rx now).1 ∧
    0 ≤ (rateEstimate prev tx rx now).2 ∧
    rateEstimate none tx rx now = (0, 0) ∧
    (∀ ptx prx pt, prev = some (ptx, prx, pt) →
      rateEstimate prev tx rx now =
        (⌊((max 0 ((tx : Int) - ptx) : Int) : Rat) / max (1 / 1000) (now - pt)⌋,
         ⌊((max 0 ((rx : Int) - prx) : Int) : Rat) / max (1 / 1000) (now - pt)⌋)) ∧
    (∀ ptx prx pt, prev = some (ptx, prx, pt) → tx ≤ ptx →
      (rateEstimate prev tx rx now).1 = 0) := by
  have hdt : ∀ pt : Rat, (0 : Rat) ≤ max (1 / 1000) (now - pt) := fun pt =>
    le_trans (by norm_num) (le_max_left _ _)
  have hnum : ∀ a b : Int, (0 : Rat) ≤ ((max 0 (a - b) : Int) : Rat) := fun a b => by
    exact_mod_cast le_max_left 0 (a - b)
  refine ⟨?_, ?_, rfl, ?_, ?_⟩
  · cases prev with
    | none => simp [rateEstimate]
    | some t =>
      obtain ⟨ptx, prx, pt⟩ := t
      simp only [rateEstimate]
      exact Int.floor_nonneg.mpr (div_nonneg (hnum _ _) (hdt pt))
  · cases prev with
    | none => simp [rateEstimate]
    | some t =>
      obtain ⟨ptx, prx, pt⟩ := t
      simp only [rateEstimate]
      exact Int.floor_nonneg.mpr (div_nonneg (hnum _ _) (hdt pt))
  · rintro ptx prx pt rfl
    simp only [rateEstimate]
  · rintro ptx prx pt rfl h
    have hz : max 0 ((tx : Int) - (ptx : Int)) = 0 :=
      max_eq_left (sub_nonpos.mpr (by exact_mod_cast h))
    simp [rateEstimate, hz]

/-- Witness for `rateEstimate_spec`: one second after a sample of
`(100, 200)`, counters `(400, 200)` give an upload rate of `300` bytes/sec
and a download rate of `0`; a regressed upload counter gives rate `0`. -/
theorem rateEstimate_spec_witness :
    rateEstimate (some (100, 200, 10)) 400 200 11 =
      (⌊((max 0 ((400 : Int) - 100) : Int) : Rat) / max (1 / 1000) ((11 : Rat) - 10)⌋,
       ⌊((max 0 ((200 : Int) - 200) : Int) : Rat) / max (1 / 1000) ((11 : Rat) - 10)⌋) ∧
    rateEstimate none 400 200 11 = (0, 0) ∧
    (rateEstimate (some (400, 0, 10)) 100 0 11).1 = 0 :=
  ⟨(rateEstimate_spec (some (100, 200, 10)) 400 200 11).2.2.2.1 100 200 10 rfl,
   (rateEstimate_spec none 400 200 11).2.2.1,
   (rateEstimate_spec (some (400, 0, 10)) 100 0 11).2.2.2.2 400 0 10 rfl (by decide)⟩

/-- C7 counterexample: two consecutive successful reconciliations can
decrease the written-back counters with no reset involved — a first cycle in
which iptables accounts 1000 bytes each way writes `(500, 500)`, and a next
cycle in which the iptables counters read zero and the runtime reports 100
raw bytes each way overwrites them with `(50, 50)`. -/
theorem reconcileCounters_decrease_cex :
    reconcileCounters (0, 0) (some (1000, 1000)) none = (500, 500) ∧
    reconcileCounters (500, 500) (some (0, 0)) (some (100, 100)) = (50, 50) ∧
    50 < 500 := by decide

/-- C7 (amended): a reconciliation cycle either leaves the counters unchanged
(total source failure) or overwrites them with the current halved source
reading; the written-back counters therefore are not unconditionally
monotone — they are non-decreasing across consecutive successful cycles
exactly when each new halved reading is at least the previous value. -/
theorem reconcileCounters_overwrite (prev : Nat × Nat) (ipt docker : Option (Nat × Nat)) :
    reconcileCounters prev ipt docker = prev ∨
    (∃ rx tx, ipt = some (rx, tx) ∧ 0 < rx + tx ∧
      reconcileCounters prev ipt docker = (tx / 2, rx / 2)) ∨
    (∃ rrx rtx, docker = some (rrx, rtx) ∧
      reconcileCounters prev ipt docker = (rtx / 2, rrx / 2)) := by
  match ipt, docker with
  | none, none => exact Or.inl rfl
  | none, some (rrx, rtx) => exact Or.inr (Or.inr ⟨rrx, rtx, rfl, rfl⟩)
  | some (rx, tx), d =>
    by_cases h : 0 < rx ∨ 0 < tx
    · exact Or.inr (Or.inl ⟨rx, tx, rfl, by omega, by simp [reconcileCounters, h]⟩)
    · match d with
      | none => exact Or.inl (by simp [reconcileCounters, h])
      | some (rrx, rtx) => exact Or.inr (Or.inr ⟨rrx, rtx, rfl, by simp [reconcileCounters, h]⟩)

/-- C8 counterexample: for a proxy without a `quota_start`, quota usage is the
total `upload + download` from absolute zero, not the baseline-relative
difference — with counters `(5, 7)` and baselines `(3, 4)` the code reports
`12` where the baseline-relative formula gives `5`. -/
theorem quotaUsageBytes_absolute_cex :
    let p : ProxyRec := ⟨1, 443, some "c", "running", 5, 7, 0, 1000, false, 3, 4, none⟩
    (quotaUsageBytes p : Int) ≠
      ((p.upload : Int) - p.quota_base_upload) + ((p.download : Int) - p.quota_base_download) := by
  decide

/-- C8 (amended): for a proxy whose `quota_start` is set, quota usage is
computed relative to the node's own quota-window baselines, with each
direction's delta clamped at zero; for a proxy without a `quota_start` it
falls back to the absolute total `upload + download`. -/
theorem quotaUsageBytes_baseline (p : ProxyRec) (h : p.quota_start = true) :
    (quotaUsageBytes p : Int) =
      max 0 ((p.upload : Int) - p.quota_base_upload) +
      max 0 ((p.download : Int) - p.quota_base_download) := by
  have h1 : ∀ a b : Nat, ((a - b : Nat) : Int) = max 0 ((a : Int) - b) := by
    intro a b
    rcases le_total b a with hle | hle
    · rw [Nat.cast_sub hle, max_eq_right (sub_nonneg.mpr (by exact_mod_cast hle))]
    · rw [Nat.sub_eq_zero_of_le hle, max_eq_left (sub_nonpos.mpr (by exact_mod_cast hle))]
      rfl
  simp [quotaUsageBytes, h, h1]

/-- Witness for `quotaUsageBytes_baseline`: counters `(50, 70)` with baselines
`(30, 100)` give usage `20 = max 0 20 + max 0 (-30)`. -/
theorem quotaUsageBytes_baseline_witness :
    let p : ProxyRec := ⟨1, 443, some "c", "running", 50, 70, 0, 1000, true, 30, 100, none⟩
    quotaUsageBytes p = 20 ∧
    (quotaUsageBytes p : Int) =
      max 0 ((p.upload : Int) - p.quota_base_upload) +
      max 0 ((p.download : Int) - p.quota_base_download) :=
  ⟨by decide, quotaUsageBytes_baseline _ rfl⟩

/-- A proxy whose status is not `"running"` is skipped by the limit check:
no stop command, no status change, no alert. -/
theorem checkProxyLimits1_not_running (now : Rat) (d : Bool) (p : ProxyRec)
    (h : ¬ p.status = "running") : checkProxyLimits1 now d p = ⟨p, 0, []⟩ := by
  simp [checkProxyLimits1, h]

/-- A running, non-expired proxy with a positive quota that its usage has
reached is stopped: status becomes `"stopped"`, one stop command is issued
when the runtime and a container id are present, and one alert is
requested. -/
theorem checkProxyLimits1_quota_stop (now : Rat) (d : Bool) (p : ProxyRec)
    (hrun : p.status = "running")
    (hexp : ∀ e, p.expiry_date = some e → ¬ e < now)
    (hq0 : 0 < p.quota_bytes) (hq : p.quota_bytes ≤ quotaUsageBytes p) :
    checkProxyLimits1 now d p =
      { proxy := { p with status := "stopped" }
        stopCmds := if d && p.container_id.isSome then 1 else 0
        alertKeys := ["autostop:" ++ toString p.id] } := by
  have hexpb : (match p.expiry_date with
      | some e => decide (e < now)
      | none => false) = false := by
    cases hpe : p.expiry_date with
    | none => rfl
    | some e => simpa using hexp e hpe
  simp [checkProxyLimits1, hrun, hexpb, hq0, hq]

/-- A running, non-expired proxy whose quota usage is below its quota is left
untouched by the limit check. -/
theorem checkProxyLimits1_no_stop (now : Rat) (d : Bool) (p : ProxyRec)
    (hrun : p.status = "running")
    (hexp : ∀ e, p.expiry_date = some e → ¬ e < now)
    (hq : quotaUsageBytes p < p.quota_bytes) :
    checkProxyLimits1 now d p = ⟨p, 0, []⟩ := by
  have hexpb : (match p.expiry_date with
      | some e => decide (e < now)
      | none => false) = false := by
    cases hpe : p.expiry_date with
    | none => rfl
    | some e => simpa using hexp e hpe
  have hq2 : ¬ p.quota_bytes ≤ quotaUsageBytes p := not_le.mpr hq
  simp [checkProxyLimits1, hrun, hexpb, hq2]

/-- C1 counterexample: the code does not stop a running quota-limited node
exactly when `(upload - base_upload) + (download - base_download) ≥
quota_bytes` — each direction's delta is clamped at zero first.  A node with
`upload = 0` against `base_upload = 2000` and `download = 1500` against
`base_download = 0` has `(0 - 2000) + (1500 - 0) = -500 < 1000`, yet the
enforcement step stops it, because the clamped usage is `0 + 1500 ≥ 1000`. -/
theorem checkProxyLimits_quota_clamp_cex :
    let p : ProxyRec := ⟨1, 443, some "c", "running", 0, 1500, 0, 1000, true, 2000, 0, none⟩
    (checkProxyLimits1 0 true p).proxy.status = "stopped" ∧
    (checkProxyLimits1 0 true p).stopCmds = 1 ∧
    ((p.upload : Int) - p.quota_base_upload) + ((p.download : Int) - p.quota_base_download)
      < p.quota_bytes := by
  decide

/-- C1 (amended): for a running node with `quota_bytes > 0`, a container id,
and no expiry due, the enforcement step stops the node exactly when its
clamped baseline-relative usage `quotaUsageBytes` reaches the quota: it then
issues exactly one stop command, sets the status to `"stopped"` and requests
one alert, and a subsequent cycle — usage unchanged or higher — skips the
now-stopped node and issues nothing further; below the quota nothing at all
happens. -/
theorem checkProxyLimits_quota_amended (now now2 : Rat) (p : ProxyRec)
    (hrun : p.status = "running") (hq0 : 0 < p.quota_bytes)
    (hexp : ∀ e, p.expiry_date = some e → ¬ e < now)
    (hc : p.container_id.isSome = true) :
    (p.quota_bytes ≤ quotaUsageBytes p →
      (checkProxyLimits1 now true p).proxy = { p with status := "stopped" } ∧
      (checkProxyLimits1 now true p).stopCmds = 1 ∧
      (checkProxyLimits1 now true p).alertKeys = ["autostop:" ++ toString p.id] ∧
      checkProxyLimits1 now2 true (checkProxyLimits1 now true p).proxy =
        ⟨(checkProxyLimits1 now true p).proxy, 0, []⟩) ∧
    (quotaUsageBytes p < p.quota_bytes →
      checkProxyLimits1 now true p = ⟨p, 0, []⟩) := by
  constructor
  · intro hu
    have h1 := checkProxyLimits1_quota_stop now true p hrun hexp hq0 hu
    have hstopped : (checkProxyLimits1 now true p).proxy.status = "stopped" := by
      rw [h1]
    refine ⟨by rw [h1], by rw [h1]; simp [hc], by rw [h1], ?_⟩
    exact checkProxyLimits1_not_running now2 true _ (by rw [hstopped]; decide)
  · exact checkProxyLimits1_no_stop now true p hrun hexp

/-- Witness for `checkProxyLimits_quota_amended`: a running node with quota
1000, zero baselines and usage exactly `600 + 400 = 1000` is stopped with one
stop command and one alert, and the next cycle does nothing to it. -/
theorem checkProxyLimits_quota_amended_witness :
    let p : ProxyRec := ⟨7, 443, some "c", "running", 600, 400, 0, 1000, true, 0, 0, none⟩
    (checkProxyLimits1 5 true p).proxy = { p with status := "stopped" } ∧
    (checkProxyLimits1 5 true p).stopCmds = 1 ∧
    (checkProxyLimits1 5 true p).alertKeys = ["autostop:7"] ∧
    checkProxyLimits1 8 true (checkProxyLimits1 5 true p).proxy =
      ⟨(checkProxyLimits1 5 true p).proxy, 0, []⟩ := by
  intro p
  obtain ⟨h1, h2, h3, h4⟩ :=
    (checkProxyLimits_quota_amended 5 8 p rfl (by decide)
      (fun e he => Option.noConfusion he) rfl).1 (by decide)
  exact ⟨h1, h2, by rw [h3]; decide, h4⟩

/-- C5: for a dedupe key with no prior emission, the first `_maybe_emit_alert`
call persists exactly one `Alert` row; a second call with the same key less
than the cooldown later is a silent no-op that changes no state at all, so
exactly one row is persisted; a second call at or beyond the cooldown
persists a second row. -/
theorem maybeEmitAlert_dedupe (st : AlertSt) (pid : Option Nat) (sev msg : String)
    (key : String) (t1 t2 cooldown : Rat) (hfresh : st.lastByKey key = none) :
    (maybeEmitAlert st pid sev msg key t1 cooldown).events =
      st.events ++ [⟨pid, sev, msg, t1⟩] ∧
    (t2 - t1 < cooldown →
      maybeEmitAlert (maybeEmitAlert st pid sev msg key t1 cooldown) pid sev msg key t2 cooldown =
        maybeEmitAlert st pid sev msg key t1 cooldown) ∧
    (cooldown ≤ t2 - t1 →
      (maybeEmitAlert (maybeEmitAlert st pid sev msg key t1 cooldown) pid sev msg key t2
            cooldown).events =
        st.events ++ [⟨pid, sev, msg, t1⟩, ⟨pid, sev, msg, t2⟩]) := by
  have h1 : maybeEmitAlert st pid sev msg key t1 cooldown =
      { lastByKey := fun k => if k = key then some t1 else st.lastByKey k
        events := st.events ++ [⟨pid, sev, msg, t1⟩] } := by
    simp [maybeEmitAlert, hfresh]
  refine ⟨by rw [h1], ?_, ?_⟩
  · intro hcd
    rw [h1]
    simp [maybeEmitAlert, hcd]
  · intro hcd
    have hncd : ¬ (t2 - t1 < cooldown) := not_lt.mpr hcd
    rw [h1]
    simp [maybeEmitAlert, hncd]

/-- Witness for `maybeEmitAlert_dedupe`: with a 60-second cooldown, emissions
at t = 10 and t = 30 persist one row and leave the state untouched, while
emissions at t = 10 and t = 100 persist two rows. -/
theorem maybeEmitAlert_dedupe_witness :
    let st0 : AlertSt := ⟨fun _ => none, []⟩
    (maybeEmitAlert st0 (some 1) "warning" "m" "k" 10 60).events =
      [⟨some 1, "warning", "m", 10⟩] ∧
    maybeEmitAlert (maybeEmitAlert st0 (some 1) "warning" "m" "k" 10 60)
        (some 1) "warning" "m" "k" 30 60 =
      maybeEmitAlert st0 (some 1) "warning" "m" "k" 10 60 ∧
    (maybeEmitAlert (maybeEmitAlert st0 (some 1) "warning" "m" "k" 10 60)
        (some 1) "warning" "m" "k" 100 60).events =
      [⟨some 1, "warning", "m", 10⟩, ⟨some 1, "warning", "m", 100⟩] := by
  intro st0
  obtain ⟨h1, h2, _⟩ := maybeEmitAlert_dedupe st0 (some 1) "warning" "m" "k" 10 30 60 rfl
  obtain ⟨_, _, h3⟩ := maybeEmitAlert_dedupe st0 (some 1) "warning" "m" "k" 10 100 60 rfl
  exact ⟨by simpa using h1, h2 (by norm_num), by simpa using h3 (by norm_num)⟩

/-- C9 counterexample: retention pruning does not run on every cycle — on a
cycle only 30 seconds after the last snapshot, a snapshot older than the
30-day retention window survives untouched, because deletion only happens
inside the 60-second snapshot branch. -/
theorem archiverStep_no_prune_between_snapshots_cex :
    let old : SnapRow := ⟨1, 0, 0, 0, 0⟩
    archiverStep 3000000 2999970 [] [old] [] = ([old], [], 2999970) ∧
    old.timestamp < 3000000 - 30 * 86400 := by
  constructor
  · simp only [archiverStep]
    rw [if_neg (by norm_num)]
  · norm_num

/-- C9 (amended): on a cycle at least 60 seconds after the last snapshot,
the archiver appends one StatsSnapshot per proxy of the cycle list (every
proxy with a container id, running or not), resets the sample clock, and then
deletes exactly the snapshots and alerts strictly older than `now - 30` days
— records at or after the cutoff are retained, including all just-written
snapshots; on a cycle less than 60 seconds after the last snapshot nothing
changes at all (no pruning), and the writes and deletes go through two
separate commits rather than one transaction. -/
theorem archiverStep_spec (now lastSample : Rat) (proxies : List ProxyRec)
    (snaps : List SnapRow) (alerts : List AlertRow) :
    (60 ≤ now - lastSample →
      (∀ s : SnapRow, s ∈ (archiverStep now lastSample proxies snaps alerts).1 ↔
        ((s ∈ snaps ∨ ∃ p ∈ proxies,
            s = ⟨p.id, p.upload, p.download, p.active_connections, now⟩) ∧
          ¬ s.timestamp < now - 30 * 86400)) ∧
      (∀ a : AlertRow, a ∈ (archiverStep now lastSample proxies snaps alerts).2.1 ↔
        (a ∈ alerts ∧ ¬ a.created_at < now - 30 * 86400)) ∧
      (archiverStep now lastSample proxies snaps alerts).2.2 = now ∧
      (∀ p ∈ proxies,
        (⟨p.id, p.upload, p.download, p.active_connections, now⟩ : SnapRow) ∈
          (archiverStep now lastSample proxies snaps alerts).1)) ∧
    (now - lastSample < 60 →
      archiverStep now lastSample proxies snaps alerts = (snaps, alerts, lastSample)) := by
  constructor
  · intro h
    have hres : archiverStep now lastSample proxies snaps alerts =
        ((snaps ++ proxies.map
            (fun p => (⟨p.id, p.upload, p.download, p.active_connections, now⟩ : SnapRow))).filter
          (fun s => ¬ s.timestamp < now - 30 * 86400),
         alerts.filter (fun a => ¬ a.created_at < now - 30 * 86400),
         now) := by
      simp only [archiverStep]
      rw [if_pos h]
    have hkeep : ¬ (now < now - 30 * 86400) :=
      not_lt.mpr (sub_le_self now (by norm_num))
    refine ⟨?_, ?_, by rw [hres], ?_⟩
    · intro s
      rw [hres]
      simp [List.mem_filter, List.mem_append, List.mem_map, eq_comm]
      tauto
    · intro a
      rw [hres]
      simp [List.mem_filter]
    · intro p hp
      rw [hres]
      simp only [List.mem_filter, List.mem_append, List.mem_map]
      exact ⟨Or.inr ⟨p, hp, rfl⟩, by simp⟩
  · intro h
    simp only [archiverStep]
    rw [if_neg (not_le.mpr h)]

/-- Witness for `archiverStep_spec`: 1000 seconds after the last sample, a
stopped proxy with a container id still gets a snapshot, a fresh snapshot and
nothing older than 30 days survive pruning, and the sample clock resets. -/
theorem archiverStep_spec_witness :
    let p8 : ProxyRec := ⟨8, 88, some "c", "stopped", 11, 22, 3, 0, false, 0, 0, none⟩
    let oldS : SnapRow := ⟨1, 0, 0, 0, 0⟩
    let newS : SnapRow := ⟨2, 5, 6, 7, 2999999⟩
    let oldA : AlertRow := ⟨none, "warning", "x", 0⟩
    (archiverStep 3000000 2999000 [p8] [oldS, newS] [oldA]).2.2 = 3000000 ∧
    (⟨8, 11, 22, 3, 3000000⟩ : SnapRow) ∈
      (archiverStep 3000000 2999000 [p8] [oldS, newS] [oldA]).1 ∧
    newS ∈ (archiverStep 3000000 2999000 [p8] [oldS, newS] [oldA]).1 ∧
    oldS ∉ (archiverStep 3000000 2999000 [p8] [oldS, newS] [oldA]).1 ∧
    oldA ∉ (archiverStep 3000000 2999000 [p8] [oldS, newS] [oldA]).2.1 := by
  intro p8 oldS newS oldA
  obtain ⟨hs, ha, ht, hnew⟩ :=
    (archiverStep_spec 3000000 2999000 [p8] [oldS, newS] [oldA]).1 (by norm_num)
  refine ⟨ht, hnew p8 (by simp), ?_, ?_, ?_⟩
  · exact (hs newS).mpr ⟨Or.inl (by simp), by norm_num⟩
  · intro hm
    have := ((hs oldS).mp hm).2
    norm_num at this
  · intro hm
    have := ((ha oldA).mp hm).2
    norm_num at this

/-- `observeKey` never changes the entry of a key other than the one
observed. -/
theorem observeKey_ne (m : ConnMap) (k k2 : ConnKey) (now : Rat) (h : ¬ k2 = k) :
    observeKey m k now k2 = m k2 := by
  unfold observeKey
  split
  · simp [h]
  · rfl

/-- Folding `observeKey` over a list of observed keys leaves any key not in
the list untouched. -/
theorem foldl_observe_not_mem (current : List ConnKey) (m : ConnMap) (k : ConnKey) (now : Rat)
    (h : k ∉ current) :
    current.foldl (fun acc k2 => observeKey acc k2 now) m k = m k := by
  induction current generalizing m with
  | nil => rfl
  | cons hd tl ih =>
    have hne : ¬ k = hd := fun he => h (by simp [he])
    have htl : k ∉ tl := fun ht => h (List.mem_cons_of_mem _ ht)
    simp only [List.foldl_cons]
    rw [ih _ htl, observeKey_ne _ _ _ _ hne]

/-- Folding `observeKey` over observed keys preserves an existing non-zero
first-seen entry. -/
theorem foldl_observe_keep (current : List ConnKey) (m : ConnMap) (k : ConnKey) (t now : Rat)
    (hm : m k = some t) (ht : ¬ t = 0) :
    current.foldl (fun acc k2 => observeKey acc k2 now) m k = some t := by
  induction current generalizing m with
  | nil => exact hm
  | cons hd tl ih =>
    simp only [List.foldl_cons]
    have hstep : (observeKey m hd now) k = some t := by
      by_cases he : k = hd
      · subst he
        simp [observeKey, hm, ht]
      · rw [observeKey_ne _ _ _ _ he]; exact hm
    exact ih _ hstep

/-- Folding `observeKey` over observed keys gives a key of the list with no
prior entry (or a fresh entry from this very instant) the entry `now`. -/
theorem foldl_observe_new (current : List ConnKey) (m : ConnMap) (k : ConnKey) (now : Rat)
    (hm : m k = none ∨ m k = some now) (hk : k ∈ current) :
    current.foldl (fun acc k2 => observeKey acc k2 now) m k = some now := by
  induction current generalizing m with
  | nil => cases hk
  | cons hd tl ih =>
    simp only [List.foldl_cons]
    by_cases he : k = hd
    · subst he
      have hstep : (observeKey m k now) k = some now := by
        rcases hm with h | h
        · simp [observeKey, h]
        · by_cases h0 : now = 0
          · simp [observeKey, h, h0]
          · simp [observeKey, h, h0]
      by_cases htl : k ∈ tl
      · exact ih _ (Or.inr hstep) htl
      · rw [foldl_observe_not_mem _ _ _ _ htl, hstep]
    · have htl : k ∈ tl := by
        rcases List.mem_cons.mp hk with h | h
        · exact absurd h he
        · exact h
      refine ih _ ?_ htl
      rcases hm with h | h
      · exact Or.inl (by rw [observeKey_ne _ _ _ _ he]; exact h)
      · exact Or.inr (by rw [observeKey_ne _ _ _ _ he]; exact h)

/-- Pointwise reading of one tracker cycle: a key keeps its (possibly
just-created) first-seen entry when currently observed and is dropped
otherwise. -/
theorem reconcileConns_apply (m : ConnMap) (c : List ConnKey) (now : Rat) (k : ConnKey) :
    reconcileConns m c now k =
      if k ∈ c then c.foldl (fun acc k2 => observeKey acc k2 now) m k else none := rfl

/-- C4: across two tracker cycles at instants `n1 < n2`, a key not observed
in the second cycle has no first-seen record afterwards; a key first observed
in cycle one gets first-seen `n1` (age `n1 - n1 = 0`) and, when still
observed in cycle two, keeps that original timestamp so its age strictly
grows; and a key with an existing (non-zero) first-seen record keeps it
through both cycles with strictly growing age. -/
theorem reconcileConns_two_cycles (m : ConnMap) (c1 c2 : List ConnKey)
    (n1 n2 : Rat) (k : ConnKey) (h01 : ¬ n1 = 0) (h12 : n1 < n2) :
    (k ∉ c2 → reconcileConns (reconcileConns m c1 n1) c2 n2 k = none) ∧
    (k ∈ c1 → k ∈ c2 → m k = none →
      reconcileConns m c1 n1 k = some n1 ∧
      reconcileConns (reconcileConns m c1 n1) c2 n2 k = some n1 ∧
      n1 - n1 = 0 ∧ n1 - n1 < n2 - n1) ∧
    (∀ t, k ∈ c1 → k ∈ c2 → m k = some t → ¬ t = 0 →
      reconcileConns m c1 n1 k = some t ∧
      reconcileConns (reconcileConns m c1 n1) c2 n2 k = some t ∧
      n1 - t < n2 - t) := by
  refine ⟨?_, ?_, ?_⟩
  · intro h
    rw [reconcileConns_apply, if_neg h]
  · intro h1 h2 hm
    have hc1 : reconcileConns m c1 n1 k = some n1 := by
      rw [reconcileConns_apply, if_pos h1]
      exact foldl_observe_new _ _ _ _ (Or.inl hm) h1
    have hc2 : reconcileConns (reconcileConns m c1 n1) c2 n2 k = some n1 := by
      rw [reconcileConns_apply, if_pos h2]
      exact foldl_observe_keep _ _ _ _ _ hc1 h01
    exact ⟨hc1, hc2, sub_self n1, by rw [sub_self]; exact sub_pos.mpr h12⟩
  · intro t h1 h2 hm ht
    have hc1 : reconcileConns m c1 n1 k = some t := by
      rw [reconcileConns_apply, if_pos h1]
      exact foldl_observe_keep _ _ _ _ _ hm ht
    have hc2 : reconcileConns (reconcileConns m c1 n1) c2 n2 k = some t := by
      rw [reconcileConns_apply, if_pos h2]
      exact foldl_observe_keep _ _ _ _ _ hc1 ht
    exact ⟨hc1, hc2, sub_lt_sub_right h12 t⟩

/-- Witness for `reconcileConns_two_cycles`: starting from an empty tracker,
two connections appear at t = 100; at t = 103 only the first is still
observed — it keeps first-seen 100 and its age grew from 0 to 3, while the
second is gone from the tracker. -/
theorem reconcileConns_two_cycles_witness :
    let m0 : ConnMap := fun _ => none
    let k : ConnKey := (1, "9.9.9.9", 5555, 443)
    let k2 : ConnKey := (1, "8.8.8.8", 4444, 443)
    reconcileConns m0 [k, k2] 100 k = some 100 ∧
    reconcileConns (reconcileConns m0 [k, k2] 100) [k] 103 k = some 100 ∧
    reconcileConns (reconcileConns m0 [k, k2] 100) [k] 103 k2 = none ∧
    (100 : Rat) - 100 = 0 ∧ (100 : Rat) - 100 < 103 - 100 := by
  intro m0 k k2
  obtain ⟨hdel, hnew, hkeep⟩ :=
    reconcileConns_two_cycles m0 [k, k2] [k] 100 103 k (by decide) (by decide)
  obtain ⟨ha, hb, hc, hd⟩ := hnew (by simp) (by simp) rfl
  obtain ⟨hdel2, _, _⟩ :=
    reconcileConns_two_cycles m0 [k, k2] [k] 100 103 k2 (by decide) (by decide)
  exact ⟨ha, hb, hdel2 (by decide), hc, hd⟩

/-- A threshold hit always requests exactly one alert with key
`"ip:<pid>:<ip>"`, whatever the auto-block setting or blocklist state. -/
theorem handleThresholdHit_alertKeys (settings : List (String × String)) (pid : Nat)
    (ip2 : String) (st : BlockSt) :
    (handleThresholdHit settings pid ip2 st).alertKeys =
      st.alertKeys ++ ["ip:" ++ toString pid ++ ":" ++ ip2] := by
  by_cases ha : getSetting settings "auto_block_enabled" "0" = "1" <;>
    by_cases hb : ip2 ∈ st.blocklist <;>
      simp [handleThresholdHit, ha, hb]

/-- The blocklist after a threshold hit: the address is appended exactly when
auto-block is enabled and it is not yet listed. -/
theorem handleThresholdHit_blocklist (settings : List (String × String)) (pid : Nat)
    (ip2 : String) (st : BlockSt) :
    (handleThresholdHit settings pid ip2 st).blocklist =
      if getSetting settings "auto_block_enabled" "0" = "1" ∧ ip2 ∉ st.blocklist
      then st.blocklist ++ [ip2] else st.blocklist := by
  by_cases ha : getSetting settings "auto_block_enabled" "0" = "1" <;>
    by_cases hb : ip2 ∈ st.blocklist <;>
      simp [handleThresholdHit, ha, hb]

/-- The `INPUT` chain after a threshold hit: the DROP rule is inserted
exactly when auto-block is enabled, the address is not yet listed, and the
rule-existence probe fails. -/
theorem handleThresholdHit_fwinput (settings : List (String × String)) (pid : Nat)
    (ip2 : String) (st : BlockSt) :
    (handleThresholdHit settings pid ip2 st).fw.input =
      if getSetting settings "auto_block_enabled" "0" = "1" ∧ ip2 ∉ st.blocklist ∧
          ip2 ∉ st.fw.input
      then ip2 :: st.fw.input else st.fw.input := by
  by_cases ha : getSetting settings "auto_block_enabled" "0" = "1" <;>
    by_cases hb : ip2 ∈ st.blocklist <;>
      by_cases hr : ip2 ∈ st.fw.input <;>
        simp [handleThresholdHit, applyFirewallRule, ha, hb, hr]

/-- Appending a different address does not change an address's count. -/
theorem count_append_singleton_ne (l : List String) (x ip : String) (h : ¬ x = ip) :
    (l ++ [x]).count ip = l.count ip := by
  rw [List.count_append, List.count_singleton']
  simp [h]

/-- With auto-block enabled, a threshold hit on an address in the
absent-or-once invariant leaves it blocked exactly once: a fresh address gets
one `BlockedIP` row and one DROP rule, an already-listed one is untouched. -/
theorem handleThresholdHit_blocks (settings : List (String × String)) (pid : Nat)
    (ip : String) (st : BlockSt)
    (hset : getSetting settings "auto_block_enabled" "0" = "1")
    (h : BlockInv ip st) : BlockedOnce ip (handleThresholdHit settings pid ip st) := by
  rcases h with ⟨hb, hr⟩ | ⟨hb, hr⟩
  · constructor
    · rw [handleThresholdHit_blocklist, if_pos ⟨hset, hb⟩, List.count_append,
        List.count_eq_zero.mpr hb, List.count_singleton']
      simp
    · rw [handleThresholdHit_fwinput, if_pos ⟨hset, hb, hr⟩, List.count_cons,
        List.count_eq_zero.mpr hr]
      simp
  · have hpos : 0 < st.blocklist.count ip := by rw [hb]; omega
    have hmem : ip ∈ st.blocklist := List.count_pos_iff.mp hpos
    constructor
    · rw [handleThresholdHit_blocklist, if_neg (by simp [hmem])]
      exact hb
    · rw [handleThresholdHit_fwinput, if_neg (by simp [hmem])]
      exact hr

/-- Any threshold hit preserves the absent-or-blocked-once invariant of any
address. -/
theorem handleThresholdHit_preserves_inv (settings : List (String × String)) (pid : Nat)
    (ip2 ip : String) (st : BlockSt) (h : BlockInv ip st) :
    BlockInv ip (handleThresholdHit settings pid ip2 st) := by
  by_cases he : ip2 = ip
  · subst he
    by_cases ha : getSetting settings "auto_block_enabled" "0" = "1"
    · exact Or.inr (handleThresholdHit_blocks settings pid ip2 st ha h)
    · unfold BlockInv
      rw [handleThresholdHit_blocklist, if_neg (by simp [ha]),
        handleThresholdHit_fwinput, if_neg (by simp [ha])]
      exact h
  · have he2 : ¬ ip = ip2 := fun hh => he hh.symm
    unfold BlockInv
    rw [handleThresholdHit_blocklist, handleThresholdHit_fwinput]
    rcases h with ⟨hb, hr⟩ | ⟨hb, hr⟩
    · refine Or.inl ⟨?_, ?_⟩
      · split
        · simp [hb, he2]
        · exact hb
      · split
        · simp [hr, he2]
        · exact hr
    · refine Or.inr ⟨?_, ?_⟩
      · split
        · rw [count_append_singleton_ne _ _ _ he]; exact hb
        · exact hb
      · split
        · rw [List.count_cons]; simp [he, hr]
        · exact hr

/-- Any threshold hit preserves exactly-once-blocked status of any
address. -/
theorem handleThresholdHit_preserves_once (settings : List (String × String)) (pid : Nat)
    (ip2 ip : String) (st : BlockSt) (h : BlockedOnce ip st) :
    BlockedOnce ip (handleThresholdHit settings pid ip2 st) := by
  have h2 := handleThresholdHit_preserves_inv settings pid ip2 ip st (Or.inr h)
  rcases h2 with ⟨hb2, _⟩ | h2
  · have hpos : 0 < st.blocklist.count ip := by rw [h.1]; omega
    have hmem : ip ∈ st.blocklist := List.count_pos_iff.mp hpos
    have hmem2 : ip ∈ (handleThresholdHit settings pid ip2 st).blocklist := by
      rw [handleThresholdHit_blocklist]
      split
      · exact List.mem_append_left _ hmem
      · exact hmem
    exact absurd hmem2 hb2
  · exact h2

/-- One inner-loop iteration preserves the absent-or-blocked-once
invariant. -/
theorem autoBlockEntryStep_preserves_inv (settings : List (String × String)) (thr pidP : Nat)
    (entry : (Nat × String) × Nat) (ip : String) (st : BlockSt) (h : BlockInv ip st) :
    BlockInv ip (autoBlockEntryStep settings thr pidP st entry) := by
  by_cases h1 : entry.1.1 ≠ pidP
  · simpa [autoBlockEntryStep, h1] using h
  · by_cases h2 : thr ≤ entry.2
    · simpa [autoBlockEntryStep, h1, h2] using
        handleThresholdHit_preserves_inv settings entry.1.1 entry.1.2 ip st h
    · simpa [autoBlockEntryStep, h1, h2] using h

/-- One inner-loop iteration preserves exactly-once-blocked status. -/
theorem autoBlockEntryStep_preserves_once (settings : List (String × String)) (thr pidP : Nat)
    (entry : (Nat × String) × Nat) (ip : String) (st : BlockSt) (h : BlockedOnce ip st) :
    BlockedOnce ip (autoBlockEntryStep settings thr pidP st entry) := by
  by_cases h1 : entry.1.1 ≠ pidP
  · simpa [autoBlockEntryStep, h1] using h
  · by_cases h2 : thr ≤ entry.2
    · simpa [autoBlockEntryStep, h1, h2] using
        handleThresholdHit_preserves_once settings entry.1.1 entry.1.2 ip st h
    · simpa [autoBlockEntryStep, h1, h2] using h

/-- The inner loop for one proxy preserves the absent-or-blocked-once
invariant. -/
theorem autoBlockProxyStep_preserves_inv (settings : List (String × String)) (thr : Nat)
    (counts : List ((Nat × String) × Nat)) (ip : String) (st : BlockSt) (pidP : Nat)
    (h : BlockInv ip st) : BlockInv ip (autoBlockProxyStep settings thr counts st pidP) := by
  induction counts generalizing st with
  | nil => exact h
  | cons hd tl ih =>
    exact ih _ (autoBlockEntryStep_preserves_inv settings thr pidP hd ip st h)

/-- The inner loop for one proxy preserves exactly-once-blocked status. -/
theorem autoBlockProxyStep_preserves_once (settings : List (String × String)) (thr : Nat)
    (counts : List ((Nat × String) × Nat)) (ip : String) (st : BlockSt) (pidP : Nat)
    (h : BlockedOnce ip st) : BlockedOnce ip (autoBlockProxyStep settings thr counts st pidP) := by
  induction counts generalizing st with
  | nil => exact h
  | cons hd tl ih =>
    exact ih _ (autoBlockEntryStep_preserves_once settings thr pidP hd ip st h)

/-- A whole per-IP threshold cycle preserves the absent-or-blocked-once
invariant. -/
theorem autoBlockCycle_preserves_inv (settings : List (String × String)) (thr : Nat)
    (proxies : List Nat) (counts : List ((Nat × String) × Nat)) (ip : String) (st : BlockSt)
    (h : BlockInv ip st) : BlockInv ip (autoBlockCycle settings thr proxies counts st) := by
  induction proxies generalizing st with
  | nil => exact h
  | cons hd tl ih =>
    exact ih _ (autoBlockProxyStep_preserves_inv settings thr counts ip st hd h)

/-- A whole per-IP threshold cycle preserves exactly-once-blocked status:
an address already blocked once is never blocked again nor unblocked by the
cycle. -/
theorem autoBlockCycle_preserves_once (settings : List (String × String)) (thr : Nat)
    (proxies : List Nat) (counts : List ((Nat × String) × Nat)) (ip : String) (st : BlockSt)
    (h : BlockedOnce ip st) : BlockedOnce ip (autoBlockCycle settings thr proxies counts st) := by
  induction proxies generalizing st with
  | nil => exact h
  | cons hd tl ih =>
    exact ih _ (autoBlockProxyStep_preserves_once settings thr counts ip st hd h)

/-- Processing the inner loop for proxy `A` whose counts contain an
over-threshold entry for `ip`, with auto-block enabled, leaves `ip` blocked
exactly once. -/
theorem autoBlockProxyStep_blocks (settings : List (String × String)) (thr : Nat)
    (counts : List ((Nat × String) × Nat)) (A : Nat) (ip : String) (cnt : Nat) (st : BlockSt)
    (hset : getSetting settings "auto_block_enabled" "0" = "1")
    (hentry : ((A, ip), cnt) ∈ counts) (hcnt : thr ≤ cnt) (h : BlockInv ip st) :
    BlockedOnce ip (autoBlockProxyStep settings thr counts st A) := by
  induction counts generalizing st with
  | nil => cases hentry
  | cons hd tl ih =>
    have hstep : autoBlockProxyStep settings thr (hd :: tl) st A =
        autoBlockProxyStep settings thr tl (autoBlockEntryStep settings thr A st hd) A := rfl
    rw [hstep]
    rcases List.mem_cons.mp hentry with heq | ht
    · have honce : BlockedOnce ip (autoBlockEntryStep settings thr A st hd) := by
        rw [← heq]
        simp only [autoBlockEntryStep]
        rw [if_neg (by simp), if_pos (by simpa using hcnt)]
        exact handleThresholdHit_blocks settings A ip st hset h
      exact autoBlockProxyStep_preserves_once settings thr tl ip _ A honce
    · exact ih _ ht (autoBlockEntryStep_preserves_inv settings thr A hd ip st h)

/-- A cycle whose counts contain an over-threshold entry for `(A, ip)` with
`A` among the processed proxies and auto-block enabled leaves `ip` blocked
exactly once — independently of every other entry and proxy. -/
theorem autoBlockCycle_blocks (settings : List (String × String)) (thr : Nat)
    (proxies : List Nat) (counts : List ((Nat × String) × Nat)) (A : Nat) (ip : String)
    (cnt : Nat) (st : BlockSt)
    (hset : getSetting settings "auto_block_enabled" "0" = "1")
    (hA : A ∈ proxies) (hentry : ((A, ip), cnt) ∈ counts) (hcnt : thr ≤ cnt)
    (h : BlockInv ip st) :
    BlockedOnce ip (autoBlockCycle settings thr proxies counts st) := by
  induction proxies generalizing st with
  | nil => cases hA
  | cons hd tl ih =>
    have hstep : autoBlockCycle settings thr (hd :: tl) counts st =
        autoBlockCycle settings thr tl counts (autoBlockProxyStep settings thr counts st hd) := rfl
    rw [hstep]
    rcases List.mem_cons.mp hA with heq | ht
    · rw [← heq]
      exact autoBlockCycle_preserves_once settings thr tl counts ip _
        (autoBlockProxyStep_blocks settings thr counts A ip cnt st hset hentry hcnt h)
    · exact ih _ ht (autoBlockProxyStep_preserves_inv settings thr counts ip st hd h)

/-- A threshold hit requests the per-IP alert for its own address. -/
theorem handleThresholdHit_emits (settings : List (String × String)) (pid : Nat)
    (ip2 : String) (st : BlockSt) :
    ("ip:" ++ toString pid ++ ":" ++ ip2) ∈ (handleThresholdHit settings pid ip2 st).alertKeys := by
  rw [handleThresholdHit_alertKeys]
  exact List.mem_append_right _ (List.mem_singleton_self _)

/-- A threshold hit keeps every previously requested alert key. -/
theorem handleThresholdHit_alertKeys_mono (settings : List (String × String)) (pid : Nat)
    (ip2 : String) (st : BlockSt) (x : String) (h : x ∈ st.alertKeys) :
    x ∈ (handleThresholdHit settings pid ip2 st).alertKeys := by
  rw [handleThresholdHit_alertKeys]
  exact List.mem_append_left _ h

/-- One inner-loop iteration keeps every previously requested alert key. -/
theorem autoBlockEntryStep_alertKeys_mono (settings : List (String × String)) (thr pidP : Nat)
    (entry : (Nat × String) × Nat) (st : BlockSt) (x : String) (h : x ∈ st.alertKeys) :
    x ∈ (autoBlockEntryStep settings thr pidP st entry).alertKeys := by
  by_cases h1 : entry.1.1 ≠ pidP
  · simpa [autoBlockEntryStep, h1] using h
  · by_cases h2 : thr ≤ entry.2
    · simpa [autoBlockEntryStep, h1, h2] using
        handleThresholdHit_alertKeys_mono settings entry.1.1 entry.1.2 st x h
    · simpa [autoBlockEntryStep, h1, h2] using h

/-- The inner loop keeps every previously requested alert key. -/
theorem autoBlockProxyStep_alertKeys_mono (settings : List (String × String)) (thr : Nat)
    (counts : List ((Nat × String) × Nat)) (st : BlockSt) (pidP : Nat) (x : String)
    (h : x ∈ st.alertKeys) :
    x ∈ (autoBlockProxyStep settings thr counts st pidP).alertKeys := by
  induction counts generalizing st with
  | nil => exact h
  | cons hd tl ih =>
    exact ih _ (autoBlockEntryStep_alertKeys_mono settings thr pidP hd st x h)

/-- A whole cycle keeps every previously requested alert key. -/
theorem autoBlockCycle_alertKeys_mono (settings : List (String × String)) (thr : Nat)
    (proxies : List Nat) (counts : List ((Nat × String) × Nat)) (st : BlockSt) (x : String)
    (h : x ∈ st.alertKeys) :
    x ∈ (autoBlockCycle settings thr proxies counts st).alertKeys := by
  induction proxies generalizing st with
  | nil => exact h
  | cons hd tl ih =>
    exact ih _ (autoBlockProxyStep_alertKeys_mono settings thr counts st hd x h)

/-- The inner loop for proxy `A` requests the per-IP alert for every
over-threshold entry of `A`. -/
theorem autoBlockProxyStep_emits (settings : List (String × String)) (thr : Nat)
    (counts : List ((Nat × String) × Nat)) (A : Nat) (ip : String) (cnt : Nat) (st : BlockSt)
    (hentry : ((A, ip), cnt) ∈ counts) (hcnt : thr ≤ cnt) :
    ("ip:" ++ toString A ++ ":" ++ ip) ∈ (autoBlockProxyStep settings thr counts st A).alertKeys := by
  induction counts generalizing st with
  | nil => cases hentry
  | cons hd tl ih =>
    have hstep : autoBlockProxyStep settings thr (hd :: tl) st A =
        autoBlockProxyStep settings thr tl (autoBlockEntryStep settings thr A st hd) A := rfl
    rw [hstep]
    rcases List.mem_cons.mp hentry with heq | ht
    · refine autoBlockProxyStep_alertKeys_mono settings thr tl _ A _ ?_
      rw [← heq]
      simp only [autoBlockEntryStep]
      rw [if_neg (by simp), if_pos (by simpa using hcnt)]
      exact handleThresholdHit_emits settings A ip st
    · exact ih _ ht

/-- A cycle requests the per-IP alert for every over-threshold entry of
every processed proxy, whatever the auto-block setting. -/
theorem autoBlockCycle_emits (settings : List (String × String)) (thr : Nat)
    (proxies : List Nat) (counts : List ((Nat × String) × Nat)) (A : Nat) (ip : String)
    (cnt : Nat) (st : BlockSt)
    (hA : A ∈ proxies) (hentry : ((A, ip), cnt) ∈ counts) (hcnt : thr ≤ cnt) :
    ("ip:" ++ toString A ++ ":" ++ ip) ∈ (autoBlockCycle settings thr proxies counts st).alertKeys := by
  induction proxies generalizing st with
  | nil => cases hA
  | cons hd tl ih =>
    have hstep : autoBlockCycle settings thr (hd :: tl) counts st =
        autoBlockCycle settings thr tl counts (autoBlockProxyStep settings thr counts st hd) := rfl
    rw [hstep]
    rcases List.mem_cons.mp hA with heq | ht
    · refine autoBlockCycle_alertKeys_mono settings thr tl counts _ _ ?_
      rw [← heq]
      exact autoBlockProxyStep_emits settings thr counts A ip cnt st hentry hcnt
    · exact ih _ ht

/-- With auto-block not enabled (`auto_block_enabled` absent or not `"1"`),
a threshold hit changes neither the blocklist nor the firewall. -/
theorem handleThresholdHit_disabled (settings : List (String × String)) (pid : Nat)
    (ip2 : String) (st : BlockSt)
    (hset : ¬ getSetting settings "auto_block_enabled" "0" = "1") :
    (handleThresholdHit settings pid ip2 st).blocklist = st.blocklist ∧
    (handleThresholdHit settings pid ip2 st).fw = st.fw := by
  constructor <;> simp [handleThresholdHit, hset]

/-- With auto-block not enabled, one inner-loop iteration changes neither
the blocklist nor the firewall. -/
theorem autoBlockEntryStep_disabled (settings : List (String × String)) (thr pidP : Nat)
    (entry : (Nat × String) × Nat) (st : BlockSt)
    (hset : ¬ getSetting settings "auto_block_enabled" "0" = "1") :
    (autoBlockEntryStep settings thr pidP st entry).blocklist = st.blocklist ∧
    (autoBlockEntryStep settings thr pidP st entry).fw = st.fw := by
  by_cases h1 : entry.1.1 ≠ pidP
  · simp [autoBlockEntryStep, h1]
  · by_cases h2 : thr ≤ entry.2
    · simpa [autoBlockEntryStep, h1, h2] using
        handleThresholdHit_disabled settings entry.1.1 entry.1.2 st hset
    · simp [autoBlockEntryStep, h1, h2]

/-- With auto-block not enabled, the inner loop changes neither the
blocklist nor the firewall. -/
theorem autoBlockProxyStep_disabled (settings : List (String × String)) (thr : Nat)
    (counts : List ((Nat × String) × Nat)) (st : BlockSt) (pidP : Nat)
    (hset : ¬ getSetting settings "auto_block_enabled" "0" = "1") :
    (autoBlockProxyStep settings thr counts st pidP).blocklist = st.blocklist ∧
    (autoBlockProxyStep settings thr counts st pidP).fw = st.fw := by
  induction counts generalizing st with
  | nil => exact ⟨rfl, rfl⟩
  | cons hd tl ih =>
    obtain ⟨hb, hf⟩ := autoBlockEntryStep_disabled settings thr pidP hd st hset
    obtain ⟨hb2, hf2⟩ := ih (autoBlockEntryStep settings thr pidP st hd)
    exact ⟨hb2.trans hb, hf2.trans hf⟩

/-- With auto-block not enabled, the whole cycle changes neither the
blocklist nor the firewall. -/
theorem autoBlockCycle_disabled (settings : List (String × String)) (thr : Nat)
    (proxies : List Nat) (counts : List ((Nat × String) × Nat)) (st : BlockSt)
    (hset : ¬ getSetting settings "auto_block_enabled" "0" = "1") :
    (autoBlockCycle settings thr proxies counts st).blocklist = st.blocklist ∧
    (autoBlockCycle settings thr proxies counts st).fw = st.fw := by
  induction proxies generalizing st with
  | nil => exact ⟨rfl, rfl⟩
  | cons hd tl ih =>
    obtain ⟨hb, hf⟩ := autoBlockProxyStep_disabled settings thr counts st hd hset
    obtain ⟨hb2, hf2⟩ := ih (autoBlockProxyStep settings thr counts st hd)
    exact ⟨hb2.trans hb, hf2.trans hf⟩

/-- C6: an address whose per-node connection count reaches the per-IP
threshold on node `A` with auto-block enabled, and which is not yet in the
blocklist or the packet filter, is blocked exactly once — one `BlockedIP` row
and one DROP rule after the cycle — and any later cycle, whatever its counts,
leaves exactly that one row and one rule (check-before-add at both the
blocklist and the firewall level); the result is independent of every other
node's entries, which are universally quantified here. -/
theorem autoBlockCycle_exactly_once (settings : List (String × String)) (thr : Nat)
    (proxies proxies2 : List Nat) (counts counts2 : List ((Nat × String) × Nat))
    (st : BlockSt) (A : Nat) (ip : String) (cnt : Nat)
    (hset : getSetting settings "auto_block_enabled" "0" = "1")
    (hA : A ∈ proxies) (hentry : ((A, ip), cnt) ∈ counts) (hcnt : thr ≤ cnt)
    (hnb : ip ∉ st.blocklist) (hnr : ip ∉ st.fw.input) :
    (autoBlockCycle settings thr proxies counts st).blocklist.count ip = 1 ∧
    (autoBlockCycle settings thr proxies counts st).fw.input.count ip = 1 ∧
    (autoBlockCycle settings thr proxies2 counts2
        (autoBlockCycle settings thr proxies counts st)).blocklist.count ip = 1 ∧
    (autoBlockCycle settings thr proxies2 counts2
        (autoBlockCycle settings thr proxies counts st)).fw.input.count ip = 1 := by
  have h1 : BlockedOnce ip (autoBlockCycle settings thr proxies counts st) :=
    autoBlockCycle_blocks settings thr proxies counts A ip cnt st hset hA hentry hcnt
      (Or.inl ⟨hnb, hnr⟩)
  have h2 := autoBlockCycle_preserves_once settings thr proxies2 counts2 ip _ h1
  exact ⟨h1.1, h1.2, h2.1, h2.2⟩

/-- Witness for `autoBlockCycle_exactly_once`: with threshold 20, the
address `9.9.9.9` with 25 connections on node 1 is blocked exactly once, and
an identical second cycle adds no duplicate row or rule; node 2's unrelated
below-threshold entry changes nothing. -/
theorem autoBlockCycle_exactly_once_witness :
    let settings : List (String × String) := [("auto_block_enabled", "1")]
    let st0 : BlockSt := ⟨[], ⟨[], []⟩, []⟩
    let counts : List ((Nat × String) × Nat) := [((1, "9.9.9.9"), 25), ((2, "8.8.8.8"), 5)]
    (autoBlockCycle settings 20 [1, 2] counts st0).blocklist.count "9.9.9.9" = 1 ∧
    (autoBlockCycle settings 20 [1, 2] counts st0).fw.input.count "9.9.9.9" = 1 ∧
    (autoBlockCycle settings 20 [1, 2] counts
        (autoBlockCycle settings 20 [1, 2] counts st0)).blocklist.count "9.9.9.9" = 1 ∧
    (autoBlockCycle settings 20 [1, 2] counts
        (autoBlockCycle settings 20 [1, 2] counts st0)).fw.input.count "9.9.9.9" = 1 := by
  intro settings st0 counts
  exact autoBlockCycle_exactly_once settings 20 [1, 2] [1, 2] counts counts st0 1 "9.9.9.9" 25
    (by decide) (by decide) (by decide) (by decide) (by decide) (by decide)

/-- C10: when the persisted setting `auto_block_enabled` is absent or holds
any value other than `"1"`, a whole per-IP threshold cycle never mutates the
blocklist or the packet filter, while every over-threshold entry still gets
its per-IP alert requested. -/
theorem autoBlockCycle_disabled_only_alerts (settings : List (String × String)) (thr : Nat)
    (proxies : List Nat) (counts : List ((Nat × String) × Nat)) (st : BlockSt)
    (hset : ¬ getSetting settings "auto_block_enabled" "0" = "1") :
    (autoBlockCycle settings thr proxies counts st).blocklist = st.blocklist ∧
    (autoBlockCycle settings thr proxies counts st).fw = st.fw ∧
    (∀ A ip cnt, A ∈ proxies → ((A, ip), cnt) ∈ counts → thr ≤ cnt →
      ("ip:" ++ toString A ++ ":" ++ ip) ∈
        (autoBlockCycle settings thr proxies counts st).alertKeys) := by
  obtain ⟨hb, hf⟩ := autoBlockCycle_disabled settings thr proxies counts st hset
  refine ⟨hb, hf, ?_⟩
  intro A ip cnt hA hentry hcnt
  exact autoBlockCycle_emits settings thr proxies counts A ip cnt st hA hentry hcnt

/-- Witness for `autoBlockCycle_disabled_only_alerts`: with no
`auto_block_enabled` setting stored, an over-threshold address on node 1 only
produces the alert request; the pre-existing blocklist and firewall state are
bit-for-bit unchanged. -/
theorem autoBlockCycle_disabled_only_alerts_witness :
    let st0 : BlockSt := ⟨["5.5.5.5"], ⟨["5.5.5.5"], ["5.5.5.5"]⟩, []⟩
    (autoBlockCycle [] 20 [1] [((1, "9.9.9.9"), 25)] st0).blocklist = ["5.5.5.5"] ∧
    (autoBlockCycle [] 20 [1] [((1, "9.9.9.9"), 25)] st0).fw = ⟨["5.5.5.5"], ["5.5.5.5"]⟩ ∧
    "ip:1:9.9.9.9" ∈ (autoBlockCycle [] 20 [1] [((1, "9.9.9.9"), 25)] st0).alertKeys := by
  intro st0
  obtain ⟨h1, h2, h3⟩ :=
    autoBlockCycle_disabled_only_alerts [] 20 [1] [((1, "9.9.9.9"), 25)] st0 (by decide)
  have hk := h3 1 "9.9.9.9" 25 (by decide) (by decide) (by decide)
  have hs : "ip:" ++ toString (1 : Nat) ++ ":" ++ "9.9.9.9" = "ip:1:9.9.9.9" := rfl
  exact ⟨h1, h2, hs ▸ hk⟩
